/-
Verification of the electron-view-renderer module (src/index.js, the current
version of the module: constructor at lines 222-242, add at 258-268, load at
270-283, renderTemplate at 285-325, setupAssetsProtocol at 335-343, use at
345-352, parseFilePath at 177-185).

The JavaScript code is shallowly embedded: module state becomes an explicit
`EVRState` record, synchronous throws become `Except`/`rejected` outcomes,
and the Node `url`, `querystring` and `path.posix` library behaviours the
code relies on are modelled as executable Lean functions restricted to the
hierarchical URLs this module handles (scheme://host/path?query, without
auth, port or hash subtleties, and without repeated query keys).
-/
import Mathlib

namespace EVR

/-! ## Association lists (JS plain objects used as string-keyed maps) -/

/-- Property read `o[k]` on a JS object modelled as an association list:
the first binding for the key, if any. -/
def getKey (k : String) : List (String × α) → Option α
  | [] => none
  | (k', v) :: rest => if k' = k then some v else getKey k rest

/-- Property write `o[k] = v`: overwrite the existing binding in place, or
append a new one. -/
def setKey (k : String) (v : α) : List (String × α) → List (String × α)
  | [] => [(k, v)]
  | (k', v') :: rest => if k' = k then (k, v) :: rest else (k', v') :: setKey k v rest

theorem getKey_setKey_same (k : String) (v : α) (l : List (String × α)) :
    getKey k (setKey k v l) = some v := by
  induction l with
  | nil => simp [getKey, setKey]
  | cons kv rest ih =>
    by_cases h : kv.1 = k <;> simp [getKey, setKey, h, ih]

theorem getKey_setKey_other (k k' : String) (v : α) (l : List (String × α))
    (h : k' ≠ k) : getKey k' (setKey k v l) = getKey k' l := by
  have hkk : ¬ k = k' := fun hk => h hk.symm
  induction l with
  | nil =>
    simp only [setKey, getKey]
    rw [if_neg hkk]
  | cons kv rest ih =>
    obtain ⟨k₀, v₀⟩ := kv
    by_cases hk : k₀ = k
    · subst hk
      simp only [setKey, if_pos rfl, getKey]
      rw [if_neg hkk, if_neg hkk]
    · simp only [setKey, if_neg hk, getKey]
      by_cases hk' : k₀ = k' <;> simp [hk', ih]

/-! ## Generic list helpers for the URL / path scanners -/

theorem takeWhile_append_all (p : α → Bool) (l₁ l₂ : List α)
    (h : ∀ a ∈ l₁, p a = true) :
    (l₁ ++ l₂).takeWhile p = l₁ ++ l₂.takeWhile p := by
  induction l₁ with
  | nil => simp
  | cons a rest ih =>
    have ha : p a = true := h a (by simp)
    simp only [List.cons_append, List.takeWhile_cons, ha, if_true]
    rw [ih (fun a ha' => h a (by simp [ha']))]

theorem takeWhile_cons_neg (p : α → Bool) (a : α) (l : List α) (h : p a = false) :
    (a :: l).takeWhile p = [] := by
  simp [List.takeWhile_cons, h]

/-- Split a character list on a separator character (used for both the `&`
separator of query strings and the `/` separator of POSIX paths). -/
def splitOnChar (sep : Char) : List Char → List (List Char)
  | [] => [[]]
  | c :: rest =>
    let r := splitOnChar sep rest
    if c = sep then [] :: r
    else (c :: r.headD []) :: r.tail

theorem splitOnChar_no_sep (sep : Char) (l : List Char) (h : sep ∉ l) :
    splitOnChar sep l = [l] := by
  induction l with
  | nil => rfl
  | cons c rest ih =>
    have hc : ¬ c = sep := fun hc => h (hc ▸ List.mem_cons_self c rest)
    have hr := ih (fun hm => h (List.mem_cons_of_mem c hm))
    simp [splitOnChar, hc, hr]

theorem splitOnChar_append_sep (sep : Char) (l t : List Char) (h : sep ∉ l) :
    splitOnChar sep (l ++ sep :: t) = l :: splitOnChar sep t := by
  induction l with
  | nil => simp [splitOnChar]
  | cons c rest ih =>
    have hc : ¬ c = sep := fun hc => h (hc ▸ List.mem_cons_self c rest)
    have hr := ih (fun hm => h (List.mem_cons_of_mem c hm))
    simp [splitOnChar, hc, hr]

/-- Join character-list segments with `/` (the string `parts.join('/')`). -/
def joinSegs : List (List Char) → List Char
  | [] => []
  | [s] => s
  | s :: rest => s ++ '/' :: joinSegs rest

theorem joinSegs_cons (s : List Char) (rest : List (List Char)) (h : rest ≠ []) :
    joinSegs (s :: rest) = s ++ '/' :: joinSegs rest := by
  cases rest with
  | nil => exact absurd rfl h
  | cons t ts => rfl

theorem mem_joinSegs (segs : List (List Char)) (c : Char) (h : c ∈ joinSegs segs) :
    c = '/' ∨ ∃ s ∈ segs, c ∈ s := by
  induction segs with
  | nil => simp [joinSegs] at h
  | cons s rest ih =>
    cases rest with
    | nil =>
      simp only [joinSegs] at h
      exact Or.inr ⟨s, by simp, h⟩
    | cons t ts =>
      rw [joinSegs_cons s (t :: ts) (by simp)] at h
      rcases List.mem_append.mp h with hs | hs
      · exact Or.inr ⟨s, by simp, hs⟩
      · rcases List.mem_cons.mp hs with hc | hc
        · exact Or.inl hc
        · rcases ih hc with hc' | ⟨u, hu, hcu⟩
          · exact Or.inl hc'
          · exact Or.inr ⟨u, by simp [hu], hcu⟩

theorem splitOnChar_joinSegs (segs : List (List Char)) (hne : segs ≠ [])
    (h : ∀ s ∈ segs, '/' ∉ s) :
    splitOnChar '/' (joinSegs segs) = segs := by
  induction segs with
  | nil => exact absurd rfl hne
  | cons s rest ih =>
    cases rest with
    | nil => simp [joinSegs, splitOnChar_no_sep '/' s (h s (by simp))]
    | cons t ts =>
      rw [joinSegs_cons s (t :: ts) (by simp)]
      rw [splitOnChar_append_sep '/' s (joinSegs (t :: ts)) (h s (by simp))]
      rw [ih (by simp) (fun u hu => h u (List.mem_cons_of_mem s hu))]

theorem joinSegs_ne_nil_of_head (s : List Char) (rest : List (List Char))
    (hs : s ≠ []) : joinSegs (s :: rest) ≠ [] := by
  cases rest with
  | nil => simpa [joinSegs]
  | cons t ts => simp [joinSegs_cons s (t :: ts) (by simp)]

theorem head?_joinSegs (s : List Char) (rest : List (List Char)) (hs : s ≠ []) :
    (joinSegs (s :: rest)).head? = s.head? := by
  cases rest with
  | nil => rfl
  | cons t ts =>
    rw [joinSegs_cons s (t :: ts) (by simp)]
    cases s with
    | nil => exact absurd rfl hs
    | cons c cs => rfl

/-- Last element of a list (scanner-friendly replacement for `getLast?`). -/
def lastElem? : List α → Option α
  | [] => none
  | [a] => some a
  | _ :: rest => lastElem? rest

theorem lastElem?_cons_of_ne_nil (a : α) (l : List α) (h : l ≠ []) :
    lastElem? (a :: l) = lastElem? l := by
  cases l with
  | nil => exact absurd rfl h
  | cons b bs => rfl

theorem lastElem?_append (s t : List α) (h : t ≠ []) :
    lastElem? (s ++ t) = lastElem? t := by
  induction s with
  | nil => rfl
  | cons c cs ih =>
    have hne : cs ++ t ≠ [] := by
      intro hh
      exact h (List.append_eq_nil.mp hh).2
    rw [List.cons_append, lastElem?_cons_of_ne_nil c (cs ++ t) hne, ih]

theorem lastElem?_mem (l : List α) (a : α) (h : lastElem? l = some a) : a ∈ l := by
  induction l with
  | nil => simp [lastElem?] at h
  | cons c cs ih =>
    cases cs with
    | nil =>
      simp only [lastElem?, Option.some_inj] at h
      simp [h]
    | cons d ds =>
      rw [lastElem?_cons_of_ne_nil c (d :: ds) (by simp)] at h
      exact List.mem_cons_of_mem c (ih h)

theorem lastElem?_joinSegs (segs : List (List Char)) (hne : segs ≠ [])
    (hlast : ∃ s, lastElem? segs = some s ∧ s ≠ [] ∧ '/' ∉ s) :
    joinSegs segs ≠ [] ∧ lastElem? (joinSegs segs) ≠ some '/' := by
  induction segs with
  | nil => exact absurd rfl hne
  | cons s rest ih =>
    cases rest with
    | nil =>
      obtain ⟨u, hu, hune, huslash⟩ := hlast
      simp only [lastElem?, Option.some_inj] at hu
      refine ⟨by simpa [joinSegs, hu], ?_⟩
      intro hl
      exact huslash (hu ▸ lastElem?_mem s '/' hl)
    | cons t ts =>
      obtain ⟨u, hu, hune, huslash⟩ := hlast
      rw [lastElem?_cons_of_ne_nil s (t :: ts) (by simp)] at hu
      have ihr := ih (by simp) ⟨u, hu, hune, huslash⟩
      rw [joinSegs_cons s (t :: ts) (by simp)]
      refine ⟨by simp, ?_⟩
      rw [lastElem?_append s ('/' :: joinSegs (t :: ts)) (by simp)]
      rw [lastElem?_cons_of_ne_nil '/' (joinSegs (t :: ts)) ihr.1]
      exact ihr.2

/-! ## JavaScript values and exceptions

View-data payloads are arbitrary JS values; the model covers the primitive
values and flat objects, which is enough to express every payload the
claims mention and the falsy/truthy distinction line 293 of the source
depends on. -/

inductive JSValue where
  | undefined
  | null
  | bool (b : Bool)
  | num (n : Int)
  | str (s : String)
  | obj (fields : List (String × String))
deriving Repr, DecidableEq

/-- JS truthiness of a value (`NaN` is not representable in the model). -/
def truthy : JSValue → Bool
  | .undefined => false
  | .null => false
  | .bool b => b
  | .num n => n != 0
  | .str s => s ≠ ""
  | .obj _ => true

/-- The exceptions the embedded code can throw synchronously. -/
inductive JSException where
  /-- `TypeError` from `fileName.replace(...)` when `url.parse` produced a
  `null` pathname (src/index.js line 182). -/
  | nullPathname
  /-- `TypeError` from `renderer.extension` when `use` was called with an
  unregistered name, leaving `this._currentRenderer` equal to `undefined`
  (src/index.js lines 291, 346). -/
  | undefinedRenderer
  /-- `TypeError` from calling `renderer.rendererAction` when it is not a
  function (src/index.js line 314). -/
  | actionNotFunction
  /-- `TypeError` from `path.join` receiving the non-string `undefined`
  hostname (src/index.js line 339). -/
  | undefinedHostname
  /-- `Error('Renderer name required')` thrown by `add` (line 259). -/
  | rendererNameRequired
deriving Repr, DecidableEq

/-! ## Node `querystring` model (escape / unescape with UTF-8 bytes) -/

def hexChar (n : Nat) : Char :=
  if n < 10 then Char.ofNat (48 + n) else Char.ofNat (55 + n)

def hexVal (c : Char) : Option Nat :=
  if 48 ≤ c.toNat ∧ c.toNat ≤ 57 then some (c.toNat - 48)
  else if 65 ≤ c.toNat ∧ c.toNat ≤ 70 then some (c.toNat - 55)
  else if 97 ≤ c.toNat ∧ c.toNat ≤ 102 then some (c.toNat - 87)
  else none

/-- UTF-8 bytes of one character. -/
def utf8Bytes (c : Char) : List Nat :=
  let n := c.toNat
  if n < 0x80 then [n]
  else if n < 0x800 then [0xC0 + n / 0x40, 0x80 + n % 0x40]
  else if n < 0x10000 then
    [0xE0 + n / 0x1000, 0x80 + (n / 0x40) % 0x40, 0x80 + n % 0x40]
  else
    [0xF0 + n / 0x40000, 0x80 + (n / 0x1000) % 0x40, 0x80 + (n / 0x40) % 0x40,
     0x80 + n % 0x40]

/-- Decode a UTF-8 byte stream one byte at a time: `need` pending
continuation bytes and the accumulated code point so far. Ill-formed
input produces U+FFFD (lossily, consuming the offending byte), mirroring
`Buffer.prototype.toString` closely enough for the ASCII-only strings the
module ever decodes. -/
def utf8DecodeAux (need acc : Nat) : List Nat → List Char
  | [] => if need = 0 then [] else [Char.ofNat 0xFFFD]
  | b :: rest =>
    if need = 0 then
      if b < 0x80 then Char.ofNat b :: utf8DecodeAux 0 0 rest
      else if 0xC2 ≤ b ∧ b ≤ 0xDF then utf8DecodeAux 1 (b - 0xC0) rest
      else if 0xE0 ≤ b ∧ b ≤ 0xEF then utf8DecodeAux 2 (b - 0xE0) rest
      else if 0xF0 ≤ b ∧ b ≤ 0xF4 then utf8DecodeAux 3 (b - 0xF0) rest
      else Char.ofNat 0xFFFD :: utf8DecodeAux 0 0 rest
    else
      if 0x80 ≤ b ∧ b ≤ 0xBF then
        if need = 1 then
          Char.ofNat (acc * 0x40 + (b - 0x80)) :: utf8DecodeAux 0 0 rest
        else utf8DecodeAux (need - 1) (acc * 0x40 + (b - 0x80)) rest
      else Char.ofNat 0xFFFD :: utf8DecodeAux 0 0 rest

def utf8DecodeList (bs : List Nat) : List Char :=
  utf8DecodeAux 0 0 bs

/-- Percent-decode into bytes, with `+` decoded to a space, as the
`querystring` parser does. -/
def unescapeBytes : List Char → List Nat
  | '%' :: a :: b :: rest =>
    match hexVal a, hexVal b with
    | some x, some y => (x * 16 + y) :: unescapeBytes rest
    | _, _ => utf8Bytes '%' ++ unescapeBytes (a :: b :: rest)
  | '+' :: rest => 32 :: unescapeBytes rest
  | c :: rest => utf8Bytes c ++ unescapeBytes rest
  | [] => []

def qsUnescape (cs : List Char) : String :=
  String.mk (utf8DecodeList (unescapeBytes cs))

/-- Characters `querystring.escape` leaves unescaped. -/
def qsNoEscape (c : Char) : Bool :=
  c.isAlpha || c.isDigit ||
    c ∈ ['-', '.', '_', '~', '!', Char.ofNat 39, '(', ')', '*']

def qsEscape (s : String) : String :=
  String.mk (s.data.foldr
    (fun c acc =>
      (if qsNoEscape c then [c]
       else (utf8Bytes c).foldr
         (fun b a => '%' :: hexChar (b / 16) :: hexChar (b % 16) :: a) []) ++ acc)
    [])

/-- One `key=value` chunk of a query string: split on the first `=`
(a chunk without `=` gets the empty value); empty chunks are skipped. -/
def parsePair (cs : List Char) : Option (String × String) :=
  if cs = [] then none
  else
    let k := cs.takeWhile (fun c => c ≠ '=')
    let v := (cs.drop k.length).drop 1
    some (qsUnescape k, qsUnescape v)

/-- `querystring.parse`, restricted to queries without repeated keys
(Node turns repeats into arrays, which no claim exercises). -/
def parseQS (cs : List Char) : List (String × String) :=
  (splitOnChar '&' cs).filterMap parsePair

/-- `querystring.stringify` over string-valued pairs. -/
def stringifyQuery (q : List (String × String)) : String :=
  String.intercalate "&" (q.map fun kv => qsEscape kv.1 ++ "=" ++ qsEscape kv.2)

/-! ## Node legacy `url.parse` / `url.format` model

Restricted to hierarchical references without auth, port or fragment-heavy
inputs: scheme, optional `//host`, path and `?query` are recognised, which
covers everything the module ever feeds to the parser. -/

def isSchemeChar (c : Char) : Bool :=
  c.isAlpha || c.isDigit || c = '.' || c = '+' || c = '-'

/-- Characters that terminate the host segment. -/
def hostChar (c : Char) : Bool :=
  ¬ (c = '/' ∨ c = '?' ∨ c = '#')

/-- Characters that belong to the path segment. -/
def pathChar (c : Char) : Bool :=
  ¬ (c = '?' ∨ c = '#')

/-- Split a leading `scheme:` off a URL string, if present. -/
def schemeSplit (cs : List Char) : Option (List Char × List Char) :=
  let s := cs.takeWhile isSchemeChar
  if s ≠ [] ∧ (cs.drop s.length).head? = some ':' then
    some (s, cs.drop (s.length + 1))
  else none

structure ParsedUrl where
  hostname : Option String
  pathname : Option String
  query : List (String × String)
deriving Repr, DecidableEq

/-- Path, then optional `?query` (the `#fragment` is dropped). -/
def parsePathSearch (host : Option String) (cs : List Char) : ParsedUrl :=
  let pathPart := cs.takeWhile pathChar
  let after := cs.drop pathPart.length
  let rawQ :=
    if after.head? = some '?' then (after.drop 1).takeWhile (fun c => c ≠ '#')
    else []
  ⟨host, if pathPart = [] then none else some (String.mk pathPart), parseQS rawQ⟩

def urlParseCore (cs : List Char) : ParsedUrl :=
  match schemeSplit cs with
  | some (_, rest) =>
    if rest.take 2 = ['/', '/'] then
      let r2 := rest.drop 2
      let host := r2.takeWhile hostChar
      parsePathSearch (some (String.mk (host.map Char.toLower))) (r2.drop host.length)
    else parsePathSearch none rest
  | none => parsePathSearch none cs

/-- `url.parse(urlString, true)`. -/
def urlParse (u : String) : ParsedUrl := urlParseCore u.data

/-- The `?`/`#` escaping `url.format` applies to the pathname. -/
def escapeQH (s : String) : String :=
  String.mk (s.data.foldr
    (fun c acc =>
      (if c = '?' then ['%', '3', 'F'] else if c = '#' then ['%', '2', '3'] else [c])
        ++ acc)
    [])

/-- `url.format({pathname, protocol: 'view:', query, slashes: true})` as
called by `load` (src/index.js lines 277-282): the pathname gets a leading
slash when it lacks one, and a non-empty query becomes `?k=v&...`. -/
def urlFormatView (pathname : String) (query : List (String × String)) : String :=
  let pn := escapeQH pathname
  let pn := if pn ≠ "" ∧ pn.data.head? ≠ some '/' then "/" ++ pn else pn
  let qs := stringifyQuery query
  let search := if qs = "" then "" else "?" ++ qs
  "view:" ++ "//" ++ pn ++ search

/-! ## Node `path.posix` model (`join` and `normalize`) -/

/-- One step of `path.posix` normalization: skip empty and `.` segments,
resolve `..` against the stack (kept reversed), keep the rest. -/
def normStep (allowAbove : Bool) (stack : List (List Char)) (seg : List Char) :
    List (List Char) :=
  if seg = [] ∨ seg = ['.'] then stack
  else if seg = ['.', '.'] then
    match stack with
    | [] => if allowAbove then [seg] else []
    | top :: rest =>
      if top = ['.', '.'] then (if allowAbove then seg :: stack else stack)
      else rest
  else seg :: stack

/-- `path.posix.normalize`. -/
def posixNormalizeList (cs : List Char) : List Char :=
  if cs = [] then ['.']
  else
    let isAbs := cs.head? = some '/'
    let trail := lastElem? cs = some '/'
    let stack := (splitOnChar '/' cs).foldl (normStep (!isAbs)) []
    let core := joinSegs stack.reverse
    if core = [] then
      if isAbs then ['/'] else if trail then ['.', '/'] else ['.']
    else
      (if isAbs then '/' :: core else core) ++ (if trail then ['/'] else [])

/-- `path.posix.join`: drop empty arguments, join with `/`, normalize. -/
def pathJoinList (parts : List String) : String :=
  let nonempty := parts.filter (fun p => p ≠ "")
  if nonempty = [] then "."
  else String.mk (posixNormalizeList (joinSegs (nonempty.map String.data)))

/-! ## parseFilePath (src/index.js lines 177-185) -/

/-- Characters matched by the regex class `\s` (the ones with a fixed code
point; the full class also has every Unicode space separator, none of which
a file-path URL from this module can contain). -/
def isJsWhitespace (c : Char) : Bool :=
  c.toNat = 9 ∨ c.toNat = 10 ∨ c.toNat = 11 ∨ c.toNat = 12 ∨ c.toNat = 13 ∨
    c.toNat = 32 ∨ c.toNat = 160 ∨ c.toNat = 0x2028 ∨ c.toNat = 0x2029 ∨
    c.toNat = 0xFEFF

/-- `fileName.replace(/(?:\s|%20)/g, ' ')`: each whitespace character and
each literal `%20` becomes a single space. -/
def decodeSpacesList : List Char → List Char
  | [] => []
  | '%' :: '2' :: '0' :: rest => ' ' :: decodeSpacesList rest
  | c :: rest =>
    if isJsWhitespace c then ' ' :: decodeSpacesList rest
    else c :: decodeSpacesList rest

def decodeSpaces (s : String) : String := String.mk (decodeSpacesList s.data)

/-- JS `String.prototype.substr(start)` (a negative start counts from the
end, clamped at 0). -/
def jsSubstr (s : String) (start : Int) : String :=
  let n : Int := s.length
  let st := if start < 0 then max (n + start) 0 else start
  String.mk (s.data.drop st.toNat)

/-- `parseFilePath(urlString)`: the URL's pathname, with the leading
separator stripped on win32 and spaces decoded. A `null` pathname makes
the `.replace` call throw. -/
def parseFilePathE (win32 : Bool) (urlString : String) : Except JSException String :=
  match (urlParse urlString).pathname with
  | none => .error .nullPathname
  | some pn => .ok (decodeSpaces (if win32 then jsSubstr pn 1 else pn))

/-! ## The ElectronViewRenderer state and operations -/

/-- A registered renderer descriptor as stored by `add` (lines 261-265):
`extension` may be `null`/absent, `name` is the registration key, and
`hasAction` records whether `rendererAction` is a callable function.
The initial `this._currentRenderer = {}` is the value with no fields. -/
structure RendererData where
  extension : Option String
  name : Option String
  hasAction : Bool
deriving Repr, DecidableEq

/-- The instance state (constructor, lines 222-242). `currentRenderer` is
`none` when the JS value is `undefined` (after `use` of an unregistered
name) and `some` of a (possibly empty) object otherwise. `views` maps a
view id to the `viewData` wrapped at line 271 (presence of a binding is
presence of the `{viewData}` wrapper object). -/
structure EVRState where
  renderers : List (String × RendererData)
  currentRenderer : Option RendererData
  views : List (String × JSValue)
  viewPath : String
  viewProtcolName : String
  useAssets : Bool
  assetsPath : String
  assetsProtocolName : String
  ignoreExtensions : List String
deriving Repr, DecidableEq

/-- `add(name, {extension = null, rendererAction})` (lines 258-268): a
falsy name throws `Error('Renderer name required')`; otherwise the
normalised descriptor is stored under `name` (extra fields of the caller's
object, such as the default EJS descriptor's `viewPath`, are dropped by
the destructuring). -/
def add (st : EVRState) (name : Option String) (extension : Option String)
    (hasAction : Bool) : Except JSException EVRState :=
  match name with
  | none => .error .rendererNameRequired
  | some n =>
    if n = "" then .error .rendererNameRequired
    else .ok { st with
      renderers := setKey n ⟨extension, some n, hasAction⟩ st.renderers }

/-- `_populateEJSRenderer` (lines 354-369) registers `ejs` with extension
`.ejs` and a callable action. -/
def populateEJSRenderer (st : EVRState) : EVRState :=
  match add st (some "ejs") (some ".ejs") true with
  | .ok st' => st'
  | .error _ => st

/-- `_populateHAMLRenderer` is an empty placeholder (lines 371-373). -/
def populateHAMLRenderer (st : EVRState) : EVRState := st

/-- `_populatePugRenderer` is an empty placeholder (lines 375-377). -/
def populatePugRenderer (st : EVRState) : EVRState := st

def populateDefaultRenderers (st : EVRState) : EVRState :=
  populatePugRenderer (populateHAMLRenderer (populateEJSRenderer st))

/-- The constructor (lines 222-242). -/
def evrInit (viewPath : String := "views") (viewProtcolName : String := "view")
    (useAssets : Bool := false) (assetsPath : String := "assets")
    (assetsProtocolName : String := "asset")
    (ignoreExtensions : List String := []) : EVRState :=
  populateDefaultRenderers {
    renderers := []
    currentRenderer := some ⟨none, none, false⟩
    views := []
    viewPath := viewPath
    viewProtcolName := viewProtcolName
    useAssets := useAssets
    assetsPath := assetsPath
    assetsProtocolName := assetsProtocolName
    ignoreExtensions := ignoreExtensions }

/-- `use(name)` (lines 345-352): unconditionally overwrite the current
renderer with `this.renderers[name]` — `undefined` when unregistered.
(The protocol registration scheduled on `app.ready` is an external side
effect outside the state model.) -/
def use (st : EVRState) (name : String) : EVRState :=
  { st with currentRenderer := getKey name st.renderers }

/-- Result of `load` (lines 270-283): the updated store, the caller's
query object after the in-place `query._view = view` write, and the URL
handed to `browserWindow.loadURL`. -/
structure LoadResult where
  state : EVRState
  query : List (String × String)
  url : String
deriving Repr, DecidableEq

/-- `load(browserWindow, view, viewData, {query = {}} = {})`. -/
def load (st : EVRState) (view : String) (viewData : JSValue)
    (query : List (String × String) := []) : LoadResult :=
  let st' := { st with views := setKey view viewData st.views }
  let query' := setKey "_view" view query
  ⟨st', query', urlFormatView view query'⟩

/-- `renderer.extension || '.' + renderer.name` (line 291): a falsy
extension (absent, `null` or `""`) falls back to a dot plus the
stringified name (`".undefined"` for the initial `{}` renderer). -/
def rendererExtension (r : RendererData) : String :=
  match r.extension with
  | some e => if e = "" then "." ++ r.name.getD "undefined" else e
  | none => "." ++ r.name.getD "undefined"

/-- `path.join(this.viewPath, fileName + extension)` (line 292). -/
def candidatePath (st : EVRState) (fileName : String) (r : RendererData) : String :=
  pathJoinList [st.viewPath, fileName ++ rendererExtension r]

/-- `parsedUrl.query._view` used as a property key: an absent `_view`
gives the JS key `"undefined"` (`this._views[undefined]`). -/
def viewKeyOf (q : List (String × String)) : String :=
  (getKey "_view" q).getD "undefined"

/-- Line 293: the stored data when its wrapper exists and the data itself
is truthy, `undefined` otherwise. -/
def lookupViewData (views : List (String × JSValue)) (key : String) : JSValue :=
  match getKey key views with
  | some d => if truthy d then d else .undefined
  | none => .undefined

/-- One entry of the ignore scan (line 300):
`filePath.substr(filePath.length - ext.length) === ext`. -/
def ignoreHit (filePath ext : String) : Bool :=
  jsSubstr filePath ((filePath.length : Int) - (ext.length : Int)) = ext

/-- Lines 297-313: `this._ingnoreExtensions.some(...)` guarded by a
redundant non-emptiness test. -/
def ignoreMatch (exts : List String) (filePath : String) : Bool :=
  exts.any (ignoreHit filePath)

/-- Outcome of the synchronous body of `renderTemplate`'s promise
executor (lines 285-325): resolve without the renderer (ignore-list
short-circuit), invoke `rendererAction` with the given arguments, or
reject with the exception the `try` block caught. -/
inductive RenderOutcome where
  | resolved (mimeType : String) (data : String)
  | invoke (filePath : String) (viewData : JSValue)
  | rejected (err : JSException)
deriving Repr, DecidableEq

/-- `renderTemplate(request)` for a request with the given URL. -/
def renderTemplate (win32 : Bool) (st : EVRState) (requestUrl : String) :
    RenderOutcome :=
  match parseFilePathE win32 requestUrl with
  | .error e => .rejected e
  | .ok fileName =>
    match st.currentRenderer with
    | none => .rejected .undefinedRenderer
    | some r =>
      let filePath := candidatePath st fileName r
      let viewData := lookupViewData st.views (viewKeyOf (urlParse requestUrl).query)
      if ignoreMatch st.ignoreExtensions filePath then .resolved "text/html" ""
      else if r.hasAction then .invoke filePath viewData
      else .rejected .actionNotFunction

/-- What the view-protocol handler (lines 327-333) delivers to Electron's
`callback`: the resolution for a resolved promise, the rendered HTML for
an invoked action that completed with `renderedHTML`, and nothing at all
for a rejection — `.catch((error) => log.error(error))` only logs. -/
structure ProtocolResponse where
  mimeType : String
  data : String
deriving Repr, DecidableEq

def dispatchResult (o : RenderOutcome) (renderedHTML : String) :
    Option ProtocolResponse :=
  match o with
  | .resolved m d => some ⟨m, d⟩
  | .invoke _ _ => some ⟨"text/html", renderedHTML⟩
  | .rejected _ => none

/-- The asset-protocol handler (lines 335-343):
`path.join(this.assetsPath, hostName, fileName)`. The pathname is read
(and can throw) before the join, which itself throws on an `undefined`
hostname. -/
def assetFilePath (win32 : Bool) (st : EVRState) (requestUrl : String) :
    Except JSException String :=
  match parseFilePathE win32 requestUrl with
  | .error e => .error e
  | .ok fileName =>
    match (urlParse requestUrl).hostname with
    | none => .error .undefinedHostname
    | some host => .ok (pathJoinList [st.assetsPath, host, fileName])

/-- Modelled from the spec: the value the renderer would receive if the
raw query parameters were "passed to the renderer as view data" — the
parsed query object itself. The embedded code never constructs this value;
the definition exists only to compare the spec's claim with the code. -/
def rawQueryAsViewData (requestUrl : String) : JSValue :=
  .obj (urlParse requestUrl).query

/-! ## Character classes for symbolic URL/path reasoning -/

/-- Plain path characters: ASCII letters, digits, `/`, `-`, `_`, `.` —
no percent-encoding, no whitespace, no URL delimiters. -/
def goodPathChar (c : Char) : Bool :=
  (65 ≤ c.toNat ∧ c.toNat ≤ 90) ∨ (97 ≤ c.toNat ∧ c.toNat ≤ 122) ∨
    (48 ≤ c.toNat ∧ c.toNat ≤ 57) ∨ c.toNat = 47 ∨ c.toNat = 45 ∨
    c.toNat = 95 ∨ c.toNat = 46

/-- Plain path characters other than the separator `/`. -/
def goodSegChar (c : Char) : Bool := goodPathChar c ∧ c.toNat ≠ 47

theorem toNat_eq_of_eq_char {c d : Char} (h : c = d) : c.toNat = d.toNat := by
  rw [h]

theorem ne_char_of_toNat_ne {c d : Char} (h : c.toNat ≠ d.toNat) : c ≠ d :=
  fun hc => h (toNat_eq_of_eq_char hc)

theorem goodPathChar_spec (c : Char) (h : goodPathChar c = true) :
    isJsWhitespace c = false ∧ c ≠ '%' ∧ pathChar c = true ∧
      c ≠ '?' ∧ c ≠ '#' ∧ c ≠ '&' ∧ c ≠ '=' := by
  simp only [goodPathChar, decide_eq_true_eq] at h
  have hn : c.toNat ≠ 37 ∧ c.toNat ≠ 63 ∧ c.toNat ≠ 35 ∧ c.toNat ≠ 38 ∧
      c.toNat ≠ 61 := by omega
  refine ⟨?_, ne_char_of_toNat_ne (by simpa using hn.1), ?_,
    ne_char_of_toNat_ne (by simpa using hn.2.1),
    ne_char_of_toNat_ne (by simpa using hn.2.2.1),
    ne_char_of_toNat_ne (by simpa using hn.2.2.2.1),
    ne_char_of_toNat_ne (by simpa using hn.2.2.2.2)⟩
  · simp only [isJsWhitespace, decide_eq_false_iff_not]
    omega
  · simp only [pathChar, decide_eq_true_eq]
    push_neg
    exact ⟨ne_char_of_toNat_ne (by simpa using hn.2.1),
      ne_char_of_toNat_ne (by simpa using hn.2.2.1)⟩

theorem goodSegChar_good (c : Char) (h : goodSegChar c = true) :
    goodPathChar c = true ∧ c ≠ '/' := by
  simp only [goodSegChar, Bool.decide_and, Bool.and_eq_true, decide_eq_true_eq] at h
  exact ⟨h.1, ne_char_of_toNat_ne (by simpa using h.2)⟩

theorem decodeSpacesList_cons_ne (c : Char) (rest : List Char) (h : c ≠ '%') :
    decodeSpacesList (c :: rest) =
      if isJsWhitespace c then ' ' :: decodeSpacesList rest
      else c :: decodeSpacesList rest := by
  rw [decodeSpacesList.eq_def]
  split
  · next heq => exact absurd (congrArg (fun l => l.head?) heq) (by simp)
  · next heq =>
    have hc : c = '%' := by
      have := congrArg (fun l => l.head?) heq
      simpa using this
    exact absurd hc h
  · next heq =>
    injection heq with h1 h2
    subst h1
    subst h2
    rfl

theorem decodeSpacesList_plain (l : List Char)
    (h : ∀ c ∈ l, isJsWhitespace c = false ∧ c ≠ '%') :
    decodeSpacesList l = l := by
  induction l with
  | nil => rfl
  | cons c rest ih =>
    have hc := h c (by simp)
    have hr := ih (fun d hd => h d (by simp [hd]))
    rw [decodeSpacesList_cons_ne c rest hc.2, if_neg (by simp [hc.1]), hr]

theorem decodeSpaces_plain (s : String)
    (h : ∀ c ∈ s.data, goodPathChar c = true) : decodeSpaces s = s := by
  have : decodeSpacesList s.data = s.data :=
    decodeSpacesList_plain s.data
      (fun c hc => ⟨(goodPathChar_spec c (h c hc)).1, (goodPathChar_spec c (h c hc)).2.1⟩)
  simp [decodeSpaces, this]

/-! ## String/list bridges and URL parsing lemmas -/

theorem string_data_append (a b : String) : (a ++ b).data = a.data ++ b.data := rfl

theorem string_mk_data (s : String) : String.mk s.data = s := rfl

theorem takeWhile_all (p : α → Bool) (l : List α) (h : ∀ a ∈ l, p a = true) :
    l.takeWhile p = l := by
  have := takeWhile_append_all p l [] h
  simpa using this

theorem schemeSplit_append (scheme rest : List Char)
    (hs : ∀ c ∈ scheme, isSchemeChar c = true) (hne : scheme ≠ []) :
    schemeSplit (scheme ++ ':' :: rest) = some (scheme, rest) := by
  have htw : (scheme ++ ':' :: rest).takeWhile isSchemeChar = scheme := by
    rw [takeWhile_append_all isSchemeChar scheme (':' :: rest) hs]
    rw [takeWhile_cons_neg isSchemeChar ':' rest (by decide)]
    simp
  have hdrop : (scheme ++ ':' :: rest).drop scheme.length = ':' :: rest :=
    List.drop_left scheme (':' :: rest)
  have hdrop1 : (scheme ++ ':' :: rest).drop (scheme.length + 1) = rest := by
    have hsplit : scheme ++ ':' :: rest = (scheme ++ [':']) ++ rest := by simp
    have hlen : scheme.length + 1 = (scheme ++ [':']).length := by simp
    rw [hsplit, hlen, List.drop_left]
  simp [schemeSplit, htw, hdrop, hdrop1, hne]

theorem urlParseCore_slashes (scheme tail : List Char)
    (hs : ∀ c ∈ scheme, isSchemeChar c = true) (hne : scheme ≠ []) :
    urlParseCore (scheme ++ ':' :: '/' :: '/' :: tail) =
      parsePathSearch
        (some (String.mk ((tail.takeWhile hostChar).map Char.toLower)))
        (tail.drop (tail.takeWhile hostChar).length) := by
  rw [urlParseCore, schemeSplit_append scheme ('/' :: '/' :: tail) hs hne]
  rfl

theorem parsePathSearch_plain (host : Option String) (pn search : List Char)
    (hpn : pn ≠ []) (hchars : ∀ c ∈ pn, pathChar c = true)
    (hsearch : search = [] ∨ ∃ t, search = '?' :: t) :
    (parsePathSearch host (pn ++ search)).pathname = some (String.mk pn) ∧
      (parsePathSearch host (pn ++ search)).hostname = host := by
  have htw : (pn ++ search).takeWhile pathChar = pn := by
    rw [takeWhile_append_all pathChar pn search hchars]
    rcases hsearch with h | ⟨t, h⟩
    · simp [h]
    · rw [h, takeWhile_cons_neg pathChar '?' t (by decide)]
      simp
  simp [parsePathSearch, htw, hpn]

/-! ## POSIX normalize on plain segment lists -/

theorem foldl_normStep_plain (allow : Bool) (l : List (List Char))
    (h : ∀ s ∈ l, s = [] ∨ (s ≠ ['.'] ∧ s ≠ ['.', '.'])) (acc : List (List Char)) :
    l.foldl (normStep allow) acc = (l.filter (fun s => s ≠ [])).reverse ++ acc := by
  induction l generalizing acc with
  | nil => simp
  | cons s rest ih =>
    have hs := h s (by simp)
    have hrest := fun u hu => h u (List.mem_cons_of_mem s hu)
    rcases hs with hnil | ⟨hd1, hd2⟩
    · subst hnil
      rw [List.foldl_cons]
      have hstep : normStep allow acc [] = acc := by simp [normStep]
      rw [hstep, ih hrest]
      simp
    · by_cases hnil : s = []
      · subst hnil
        rw [List.foldl_cons]
        have hstep : normStep allow acc [] = acc := by simp [normStep]
        rw [hstep, ih hrest]
        simp
      · rw [List.foldl_cons]
        have hstep : normStep allow acc s = s :: acc := by
          rw [normStep.eq_def, if_neg (by simp [hnil, hd1]), if_neg hd2]
        rw [hstep, ih hrest]
        rw [List.filter_cons_of_pos (by simp [hnil])]
        simp

theorem posixNormalizeList_segs (segsAll : List (List Char))
    (hmem : ∀ s ∈ segsAll, s = [] ∨ ('/' ∉ s ∧ s ≠ ['.'] ∧ s ≠ ['.', '.']))
    (hfirst : ∃ s0 rest, segsAll = s0 :: rest ∧ s0 ≠ [])
    (hlast : ∃ u, lastElem? segsAll = some u ∧ u ≠ []) :
    posixNormalizeList (joinSegs segsAll) =
      joinSegs (segsAll.filter (fun s => s ≠ [])) := by
  obtain ⟨s0, rest, hseg, hs0⟩ := hfirst
  obtain ⟨u, hu, hune⟩ := hlast
  have hs0' : '/' ∉ s0 := by
    rcases hmem s0 (by simp [hseg]) with h | h
    · exact absurd h hs0
    · exact h.1
  have hu' : '/' ∉ u := by
    rcases hmem u (lastElem?_mem segsAll u hu) with h | h
    · exact absurd h hune
    · exact h.1
  have hcs : joinSegs segsAll ≠ [] := by
    rw [hseg]; exact joinSegs_ne_nil_of_head s0 rest hs0
  have hhead : (joinSegs segsAll).head? ≠ some '/' := by
    rw [hseg, head?_joinSegs s0 rest hs0]
    cases s0 with
    | nil => exact absurd rfl hs0
    | cons c cs =>
      have : c ≠ '/' := fun hc => hs0' (hc ▸ List.mem_cons_self c cs)
      simpa using this
  have hlastc : lastElem? (joinSegs segsAll) ≠ some '/' :=
    (lastElem?_joinSegs segsAll (by rw [hseg]; simp) ⟨u, hu, hune, hu'⟩).2
  have hsplit : splitOnChar '/' (joinSegs segsAll) = segsAll := by
    refine splitOnChar_joinSegs segsAll (by rw [hseg]; simp) (fun s hsm => ?_)
    rcases hmem s hsm with h | h
    · simp [h]
    · exact h.1
  have hfold := foldl_normStep_plain true segsAll
    (fun s hsm => by
      rcases hmem s hsm with h | h
      · exact Or.inl h
      · exact Or.inr ⟨h.2.1, h.2.2⟩) []
  have hfilter : segsAll.filter (fun s => s ≠ []) =
      s0 :: rest.filter (fun s => s ≠ []) := by
    rw [hseg, List.filter_cons_of_pos (by simp [hs0])]
  have hcore : joinSegs (segsAll.filter (fun s => s ≠ [])) ≠ [] := by
    rw [hfilter]
    exact joinSegs_ne_nil_of_head s0 _ hs0
  rw [posixNormalizeList, if_neg hcs]
  simp only [hsplit]
  rw [show decide ((joinSegs segsAll).head? = some '/') = false by
    simpa using hhead]
  simp only [Bool.not_false]
  rw [hfold]
  simp only [List.append_nil, List.reverse_reverse]
  rw [if_neg hcore, if_neg hhead, if_neg hlastc]
  simp

/-! ## The ignore check is a suffix check -/

theorem suffix_iff_drop (l s : List α) :
    s.length ≤ l.length → (s <:+ l ↔ l.drop (l.length - s.length) = s) := by
  intro _
  constructor
  · rintro ⟨t, rfl⟩
    rw [List.length_append, Nat.add_sub_cancel]
    exact List.drop_left t s
  · intro h
    refine ⟨l.take (l.length - s.length), ?_⟩
    conv_rhs => rw [← List.take_append_drop (l.length - s.length) l]
    rw [h]

theorem ignoreHit_iff_suffix (fp e : String) :
    ignoreHit fp e = true ↔ e.data <:+ fp.data := by
  rw [ignoreHit, decide_eq_true_iff]
  have hlfp : fp.length = fp.data.length := rfl
  have hle' : e.length = e.data.length := rfl
  by_cases hle : e.length ≤ fp.length
  · have hstart : ¬ ((fp.length : Int) - (e.length : Int) < 0) := by omega
    simp only [jsSubstr, if_neg hstart]
    have htn : ((fp.length : Int) - (e.length : Int)).toNat = fp.length - e.length := by
      omega
    rw [htn]
    rw [suffix_iff_drop fp.data e.data (by omega)]
    constructor
    · intro h
      have := congrArg String.data h
      simpa using this
    · intro h
      rw [hlfp, hle', h, string_mk_data]
  · have hstart : ((fp.length : Int) - (e.length : Int) < 0) := by omega
    simp only [jsSubstr, if_pos hstart]
    apply iff_of_false
    · intro h
      have hd := congrArg String.data h
      have hlen : e.data.length ≤ fp.data.length := by
        rw [← hd]
        rw [List.length_drop]
        exact Nat.sub_le _ _
      omega
    · intro hsuf
      have := List.IsSuffix.length_le hsuf
      omega

theorem ignoreMatch_true_of (exts : List String) (fp : String)
    (h : ∃ e ∈ exts, e.data <:+ fp.data) : ignoreMatch exts fp = true := by
  rw [ignoreMatch, List.any_eq_true]
  obtain ⟨e, he, hs⟩ := h
  exact ⟨e, he, (ignoreHit_iff_suffix fp e).mpr hs⟩

theorem ignoreMatch_false_of (exts : List String) (fp : String)
    (h : ∀ e ∈ exts, ¬ e.data <:+ fp.data) : ignoreMatch exts fp = false := by
  rw [ignoreMatch, List.any_eq_false]
  intro e he
  rw [ignoreHit_iff_suffix]
  exact h e he

/-! ## Symbolic characterisation of one dispatch -/

theorem renderTemplate_eq (win32 : Bool) (st : EVRState) (u fn : String)
    (r : RendererData) (hfn : parseFilePathE win32 u = .ok fn)
    (hcur : st.currentRenderer = some r) :
    renderTemplate win32 st u =
      (if ignoreMatch st.ignoreExtensions (candidatePath st fn r) then
        .resolved "text/html" ""
      else if r.hasAction then
        .invoke (candidatePath st fn r)
          (lookupViewData st.views (viewKeyOf (urlParse u).query))
      else .rejected .actionNotFunction) := by
  simp only [renderTemplate, hfn, hcur]

/-! ## Claim theorems -/

/-- C6: `add(name, descriptor)` fails synchronously with the
configuration error (`Error('Renderer name required')`) for every empty or
absent name; for every non-empty name it inserts the normalised descriptor
keyed by the name, replacing any previously registered descriptor under
that name (last registration wins) and leaving every other registration
and the rest of the state unchanged. -/
theorem C6_add_registration (st : EVRState) (name : Option String)
    (ext : Option String) (hasAction : Bool) :
    ((name = none ∨ name = some "") →
      add st name ext hasAction = .error .rendererNameRequired) ∧
    (∀ n, name = some n → n ≠ "" →
      ∃ st', add st name ext hasAction = .ok st' ∧
        getKey n st'.renderers = some ⟨ext, some n, hasAction⟩ ∧
        (∀ k, k ≠ n → getKey k st'.renderers = getKey k st.renderers) ∧
        st'.currentRenderer = st.currentRenderer ∧ st'.views = st.views) := by
  constructor
  · rintro (rfl | rfl) <;> simp [add]
  · rintro n rfl hne
    have hadd : add st (some n) ext hasAction =
        .ok { st with renderers := setKey n ⟨ext, some n, hasAction⟩ st.renderers } := by
      simp [add, hne]
    refine ⟨_, hadd, ?_, ?_, rfl, rfl⟩
    · exact getKey_setKey_same n ⟨ext, some n, hasAction⟩ st.renderers
    · intro k hk
      exact getKey_setKey_other n k ⟨ext, some n, hasAction⟩ st.renderers hk

theorem C6_witness :
    add (evrInit) (some "") none false = .error .rendererNameRequired ∧
    ∃ st', add (evrInit) (some "tpl") (some ".tpl") true = .ok st' ∧
      getKey "tpl" st'.renderers = some ⟨some ".tpl", some "tpl", true⟩ := by
  refine ⟨(C6_add_registration (evrInit) (some "") none false).1 (Or.inr rfl), ?_⟩
  obtain ⟨st', h1, h2, -⟩ :=
    (C6_add_registration (evrInit) (some "tpl") (some ".tpl") true).2 "tpl" rfl
      (by decide)
  exact ⟨st', h1, h2⟩

/-- C4 (amended): `use(name)` raises no configuration error. For a
registered name it sets the current-renderer selection to the registered
descriptor; for an unregistered name it silently sets the selection to
`undefined`, after which every request with a parseable pathname rejects
with the renderer-undefined TypeError. -/
theorem C4_use_selection (st : EVRState) (name : String) :
    (∀ r, getKey name st.renderers = some r →
      (use st name).currentRenderer = some r) ∧
    (getKey name st.renderers = none →
      (use st name).currentRenderer = none ∧
      ∀ win32 u fn, parseFilePathE win32 u = .ok fn →
        renderTemplate win32 (use st name) u = .rejected .undefinedRenderer) := by
  constructor
  · intro r hr
    simp [use, hr]
  · intro hr
    refine ⟨by simp [use, hr], ?_⟩
    intro win32 u fn hfn
    simp [renderTemplate, hfn, use, hr]

/-- C4 counterexample: activating the unregistered name `haml` on a fresh
instance does not fail with any error — `use` returns normally, the
selection becomes `undefined`, and the next dispatch rejects with a
TypeError, not a configuration error. -/
theorem C4_counterexample :
    getKey "haml" (evrInit).renderers = none ∧
    (use (evrInit) "haml").currentRenderer = none ∧
    renderTemplate false (use (evrInit) "haml") "view:///home" =
      .rejected .undefinedRenderer :=
  ⟨by decide, by decide, by decide⟩

theorem C4_witness :
    (use (evrInit) "ejs").currentRenderer = some ⟨some ".ejs", some "ejs", true⟩ ∧
    (use (evrInit) "pug").currentRenderer = none := by
  exact ⟨(C4_use_selection (evrInit) "ejs").1 _ (by decide),
    ((C4_use_selection (evrInit) "pug").2 (by decide)).1⟩

/-- C10: `load(window, view, viewData, {query})` stores the payload under
the view id without touching any other view-store entry, sets the `_view`
key of the caller's query object to the view id while leaving every other
key unchanged, and composes the navigation URL from that mutated query;
the renderer registry and selection are untouched. -/
theorem C10_load_effects (st : EVRState) (view : String) (d : JSValue)
    (q : List (String × String)) :
    getKey view (load st view d q).state.views = some d ∧
    (∀ v', v' ≠ view →
      getKey v' (load st view d q).state.views = getKey v' st.views) ∧
    getKey "_view" (load st view d q).query = some view ∧
    (∀ k, k ≠ "_view" → getKey k (load st view d q).query = getKey k q) ∧
    (load st view d q).url = urlFormatView view (load st view d q).query ∧
    (load st view d q).state.renderers = st.renderers ∧
    (load st view d q).state.currentRenderer = st.currentRenderer := by
  refine ⟨getKey_setKey_same view d st.views,
    fun v' hv => getKey_setKey_other view v' d st.views hv,
    getKey_setKey_same "_view" view q,
    fun k hk => getKey_setKey_other "_view" k view q hk, rfl, rfl, rfl⟩

theorem C10_witness :
    getKey "home" (load (evrInit) "home" (.str "x") [("a", "1")]).state.views =
      some (.str "x") ∧
    getKey "other" (load (evrInit) "home" (.str "x") [("a", "1")]).state.views =
      none ∧
    getKey "_view" (load (evrInit) "home" (.str "x") [("a", "1")]).query =
      some "home" ∧
    getKey "a" (load (evrInit) "home" (.str "x") [("a", "1")]).query = some "1" ∧
    (load (evrInit) "home" (.str "x") [("a", "1")]).url =
      "view:///home?a=1&_view=home" := by
  have h := C10_load_effects (evrInit) "home" (.str "x") [("a", "1")]
  refine ⟨h.1, ?_, h.2.2.1, ?_, ?_⟩
  · rw [h.2.1 "other" (by decide)]
    rfl
  · rw [h.2.2.2.1 "a" (by decide)]
    rfl
  · rw [h.2.2.2.2.1]
    decide

/-- C1 (amended): with an activated renderer whose action is callable and
a request whose candidate path is not ignore-matched, a request whose
`_view` query key equals `v` delivers the data stored under `v` exactly —
provided that data is truthy. (A falsy stored payload is delivered as
`undefined` instead; see the counterexample.) -/
theorem C1_stored_data_delivery (win32 : Bool) (st : EVRState) (u fn v : String)
    (d : JSValue) (r : RendererData)
    (hfn : parseFilePathE win32 u = .ok fn)
    (hcur : st.currentRenderer = some r)
    (hact : r.hasAction = true)
    (hview : getKey "_view" (urlParse u).query = some v)
    (hstored : getKey v st.views = some d)
    (htruthy : truthy d = true)
    (hnoign : ∀ e ∈ st.ignoreExtensions, ¬ e.data <:+ (candidatePath st fn r).data) :
    renderTemplate win32 st u = .invoke (candidatePath st fn r) d := by
  rw [renderTemplate_eq win32 st u fn r hfn hcur,
    ignoreMatch_false_of _ _ hnoign, hact]
  simp [lookupViewData, viewKeyOf, hview, hstored, htruthy]

/-- C1 counterexample: `load` stores the payload `false` under `home` and
composes exactly the request URL `view:///home?_view=home`; dispatching
that URL invokes the renderer with `undefined`, not with the stored
`false` — line 293 replaces falsy stored data by `undefined`. -/
theorem C1_counterexample :
    (load (use (evrInit) "ejs") "home" (.bool false) []).url =
      "view:///home?_view=home" ∧
    getKey "home" (load (use (evrInit) "ejs") "home" (.bool false) []).state.views =
      some (.bool false) ∧
    renderTemplate false (load (use (evrInit) "ejs") "home" (.bool false) []).state
      "view:///home?_view=home" = .invoke "views/home.ejs" .undefined ∧
    JSValue.undefined ≠ JSValue.bool false :=
  ⟨by decide, by decide, by decide, by decide⟩

theorem C1_witness :
    renderTemplate false
      (load (use (evrInit) "ejs") "home" (.obj [("title", "Hi")]) []).state
      "view:///home?_view=home" =
      .invoke "views/home.ejs" (.obj [("title", "Hi")]) := by
  have h := C1_stored_data_delivery false
    (load (use (evrInit) "ejs") "home" (.obj [("title", "Hi")]) []).state
    "view:///home?_view=home" "/home" "home" (.obj [("title", "Hi")])
    ⟨some ".ejs", some "ejs", true⟩
    rfl (by decide) rfl (by decide) (by decide) (by decide) (by decide)
  exact h.trans (by decide)

/-- C2 (amended): the raw query parameters are never what the renderer
receives as view data. When no view-data entry exists for the id carried
by `_view` the action receives `undefined`; when an entry with truthy data
exists it receives the stored data; when an entry with falsy data exists
it again receives `undefined`. -/
theorem C2_view_data_source (win32 : Bool) (st : EVRState) (u fn : String)
    (r : RendererData)
    (hfn : parseFilePathE win32 u = .ok fn)
    (hcur : st.currentRenderer = some r)
    (hact : r.hasAction = true)
    (hnoign : ∀ e ∈ st.ignoreExtensions, ¬ e.data <:+ (candidatePath st fn r).data) :
    (getKey (viewKeyOf (urlParse u).query) st.views = none →
      renderTemplate win32 st u = .invoke (candidatePath st fn r) .undefined) ∧
    (∀ d, getKey (viewKeyOf (urlParse u).query) st.views = some d →
      truthy d = true →
      renderTemplate win32 st u = .invoke (candidatePath st fn r) d) ∧
    (∀ d, getKey (viewKeyOf (urlParse u).query) st.views = some d →
      truthy d = false →
      renderTemplate win32 st u = .invoke (candidatePath st fn r) .undefined) := by
  rw [renderTemplate_eq win32 st u fn r hfn hcur,
    ignoreMatch_false_of _ _ hnoign, hact]
  refine ⟨fun hm => by simp [lookupViewData, hm],
    fun d hm ht => by simp [lookupViewData, hm, ht],
    fun d hm ht => by simp [lookupViewData, hm, ht]⟩

/-- C2 counterexample: the request `view:///home?a=1` has no view-data
entry for its `_view` key, so the claim requires the raw query parameters
`{a: "1"}` to be passed to the renderer; the code passes `undefined`. -/
theorem C2_counterexample :
    getKey (viewKeyOf (urlParse "view:///home?a=1").query)
      (use (evrInit) "ejs").views = none ∧
    renderTemplate false (use (evrInit) "ejs") "view:///home?a=1" =
      .invoke "views/home.ejs" .undefined ∧
    rawQueryAsViewData "view:///home?a=1" = .obj [("a", "1")] ∧
    JSValue.undefined ≠ rawQueryAsViewData "view:///home?a=1" :=
  ⟨by decide, by decide, by decide, by decide⟩

theorem C2_witness :
    renderTemplate false (use (evrInit) "ejs") "view:///nodata?x=2" =
      .invoke "views/nodata.ejs" .undefined := by
  have h := (C2_view_data_source false (use (evrInit) "ejs") "view:///nodata?x=2"
    "/nodata" ⟨some ".ejs", some "ejs", true⟩
    rfl (by decide) rfl (by decide)).1 (by decide)
  exact h.trans (by decide)

/-- C3 (amended): before any activation the current renderer is the empty
object `{}`, so every request whose pathname parses and whose candidate
path is not ignore-matched is rejected — but with the TypeError of calling
the missing `rendererAction`, not a dedicated not-activated error, and the
protocol handler only logs the rejection: the caller receives no response
at all, failed or otherwise. This holds whatever renderers are registered. -/
theorem C3_before_activation (win32 : Bool) (st : EVRState) (u fn : String)
    (hcur : st.currentRenderer = some ⟨none, none, false⟩)
    (hfn : parseFilePathE win32 u = .ok fn)
    (hnoign : ∀ e ∈ st.ignoreExtensions,
      ¬ e.data <:+ (candidatePath st fn ⟨none, none, false⟩).data) :
    renderTemplate win32 st u = .rejected .actionNotFunction ∧
    ∀ html, dispatchResult (renderTemplate win32 st u) html = none := by
  have h : renderTemplate win32 st u = .rejected .actionNotFunction := by
    rw [renderTemplate_eq win32 st u fn _ hfn hcur,
      ignoreMatch_false_of _ _ hnoign]
    simp
  exact ⟨h, fun html => by rw [h]; rfl⟩

/-- C3 counterexample: on a fresh instance (renderer `ejs` registered, no
activation), the request `view:///home` rejects with the
`rendererAction`-is-not-a-function TypeError — no `NotActivatedError`
exists in the code — and nothing is delivered to the protocol callback:
the rejection is only logged. -/
theorem C3_counterexample :
    (evrInit).currentRenderer = some ⟨none, none, false⟩ ∧
    getKey "ejs" (evrInit).renderers = some ⟨some ".ejs", some "ejs", true⟩ ∧
    renderTemplate false (evrInit) "view:///home" =
      .rejected .actionNotFunction ∧
    dispatchResult (renderTemplate false (evrInit) "view:///home") "" = none :=
  ⟨by decide, by decide, by decide, by decide⟩

theorem C3_witness :
    renderTemplate true (evrInit) "view:///other" =
      .rejected .actionNotFunction ∧
    dispatchResult (renderTemplate true (evrInit) "view:///other") "x" = none := by
  have h := C3_before_activation true (evrInit) "view:///other" "other"
    (by decide) rfl (by decide)
  exact ⟨h.1, h.2 "x"⟩

/-- C5: whenever the current renderer is an object — the pre-activation
empty object or any registered descriptor — and the composed candidate
file path ends with one of the configured ignore suffixes, the dispatcher
resolves immediately with an empty successful `text/html` response and the
renderer's action is never invoked. -/
theorem C5_ignore_shortcircuit (win32 : Bool) (st : EVRState) (u fn : String)
    (r : RendererData)
    (hcur : st.currentRenderer = some r)
    (hfn : parseFilePathE win32 u = .ok fn)
    (hign : ∃ e ∈ st.ignoreExtensions, e.data <:+ (candidatePath st fn r).data) :
    renderTemplate win32 st u = .resolved "text/html" "" ∧
    ∀ fp vd, renderTemplate win32 st u ≠ .invoke fp vd := by
  have h : renderTemplate win32 st u = .resolved "text/html" "" := by
    rw [renderTemplate_eq win32 st u fn r hfn hcur, ignoreMatch_true_of _ _ hign]
    rfl
  exact ⟨h, fun fp vd hinv => RenderOutcome.noConfusion (h.symm.trans hinv)⟩

theorem C5_witness :
    renderTemplate false
      (use (evrInit "views" "view" false "assets" "asset" [".map.ejs"]) "ejs")
      "view:///home.map" = .resolved "text/html" "" ∧
    renderTemplate false (evrInit "views" "view" false "assets" "asset" [".undefined"])
      "view:///raw" = .resolved "text/html" "" := by
  constructor
  · exact (C5_ignore_shortcircuit false
      (use (evrInit "views" "view" false "assets" "asset" [".map.ejs"]) "ejs")
      "view:///home.map" "/home.map" ⟨some ".ejs", some "ejs", true⟩
      (by decide) rfl ⟨".map.ejs", by decide, by decide⟩).1
  · exact (C5_ignore_shortcircuit false
      (evrInit "views" "view" false "assets" "asset" [".undefined"])
      "view:///raw" "/raw" ⟨none, none, false⟩
      (by decide) rfl ⟨".undefined", by decide, by decide⟩).1

/-- C7: with an activated renderer whose action is callable and a request
whose candidate path is not ignore-matched, a view id that has never been
loaded does not make the dispatch fail: the action is invoked with
`undefined` view data, and when the action completes the dispatch succeeds
with its HTML as a `text/html` response. -/
theorem C7_missing_view_ok (win32 : Bool) (st : EVRState) (u fn : String)
    (r : RendererData)
    (hfn : parseFilePathE win32 u = .ok fn)
    (hcur : st.currentRenderer = some r)
    (hact : r.hasAction = true)
    (hmiss : getKey (viewKeyOf (urlParse u).query) st.views = none)
    (hnoign : ∀ e ∈ st.ignoreExtensions, ¬ e.data <:+ (candidatePath st fn r).data) :
    renderTemplate win32 st u = .invoke (candidatePath st fn r) .undefined ∧
    ∀ html, dispatchResult (renderTemplate win32 st u) html =
      some ⟨"text/html", html⟩ := by
  have h : renderTemplate win32 st u = .invoke (candidatePath st fn r) .undefined := by
    rw [renderTemplate_eq win32 st u fn r hfn hcur,
      ignoreMatch_false_of _ _ hnoign, hact]
    simp [lookupViewData, hmiss]
  exact ⟨h, fun html => by rw [h]; rfl⟩

theorem C7_witness :
    renderTemplate false (use (evrInit) "ejs") "view:///missing" =
      .invoke "views/missing.ejs" .undefined ∧
    dispatchResult (renderTemplate false (use (evrInit) "ejs") "view:///missing")
      "<h1>ok</h1>" = some ⟨"text/html", "<h1>ok</h1>"⟩ := by
  have h := C7_missing_view_ok false (use (evrInit) "ejs") "view:///missing"
    "/missing" ⟨some ".ejs", some "ejs", true⟩
    rfl (by decide) rfl (by decide) (by decide)
  exact ⟨h.1.trans (by decide), h.2 "<h1>ok</h1>"⟩

/-! ## Round-trip machinery for C8 -/

theorem escapeQHList_plain (l : List Char) (h : ∀ c ∈ l, c ≠ '?' ∧ c ≠ '#') :
    l.foldr (fun c acc =>
      (if c = '?' then ['%', '3', 'F'] else if c = '#' then ['%', '2', '3'] else [c])
        ++ acc) [] = l := by
  induction l with
  | nil => rfl
  | cons c rest ih =>
    have hc := h c (by simp)
    rw [List.foldr_cons, ih (fun d hd => h d (by simp [hd]))]
    rw [if_neg hc.1, if_neg hc.2]
    rfl

theorem escapeQH_plain (s : String) (h : ∀ c ∈ s.data, c ≠ '?' ∧ c ≠ '#') :
    escapeQH s = s := by
  rw [escapeQH, escapeQHList_plain s.data h, string_mk_data]

theorem goodPathChar_no_qh (p : String) (hp : ∀ c ∈ p.data, goodPathChar c = true) :
    ∀ c ∈ p.data, c ≠ '?' ∧ c ≠ '#' := fun c hc =>
  ⟨(goodPathChar_spec c (hp c hc)).2.2.2.1, (goodPathChar_spec c (hp c hc)).2.2.2.2.1⟩

theorem urlParse_slashes_pathname (scheme : List Char) (p search : String)
    (hsch : ∀ c ∈ scheme, isSchemeChar c = true) (hschne : scheme ≠ [])
    (hp : ∀ c ∈ p.data, goodPathChar c = true)
    (hslash : p.data.head? = some '/')
    (hsearch : search.data = [] ∨ ∃ t, search.data = '?' :: t) :
    (urlParseCore (scheme ++ ':' :: '/' :: '/' :: (p.data ++ search.data))).pathname =
      some p ∧
    (urlParseCore (scheme ++ ':' :: '/' :: '/' :: (p.data ++ search.data))).hostname =
      some "" := by
  rw [urlParseCore_slashes scheme _ hsch hschne]
  obtain ⟨t, hpt⟩ : ∃ t, p.data = '/' :: t := by
    cases hd : p.data with
    | nil => rw [hd] at hslash; simp at hslash
    | cons c cs =>
      rw [hd] at hslash
      simp only [List.head?_cons, Option.some_inj] at hslash
      exact ⟨cs, by rw [hslash]⟩
  rw [hpt, List.cons_append, takeWhile_cons_neg hostChar '/' _ (by decide)]
  simp only [List.map_nil, List.length_nil, List.drop_zero]
  rw [← List.cons_append, ← hpt]
  have hps := parsePathSearch_plain (some (String.mk [])) p.data search.data
    (by rw [hpt]; simp)
    (fun c hc => (goodPathChar_spec c (hp c hc)).2.2.1) hsearch
  rw [string_mk_data] at hps
  exact ⟨hps.1, hps.2⟩

theorem data_view_url (p search : String) :
    ("view:" ++ "//" ++ p ++ search).data =
      "view".data ++ ':' :: '/' :: '/' :: (p.data ++ search.data) := rfl

theorem urlFormatView_slash (p : String) (q : List (String × String))
    (hp : ∀ c ∈ p.data, goodPathChar c = true)
    (hslash : p.data.head? = some '/') :
    urlFormatView p q = "view:" ++ "//" ++ p ++
      (if stringifyQuery q = "" then "" else "?" ++ stringifyQuery q) := by
  simp only [urlFormatView]
  rw [escapeQH_plain p (goodPathChar_no_qh p hp)]
  rw [if_neg (by simp [hslash])]

theorem urlFormatView_noslash (p : String) (q : List (String × String))
    (hp : ∀ c ∈ p.data, goodPathChar c = true)
    (hne : p ≠ "") (hslash : p.data.head? ≠ some '/') :
    urlFormatView p q = urlFormatView ("/" ++ p) q := by
  have hp' : ∀ c ∈ ("/" ++ p).data, goodPathChar c = true := by
    intro c hc
    rcases List.mem_cons.mp hc with rfl | hc'
    · decide
    · exact hp c hc'
  simp only [urlFormatView]
  rw [escapeQH_plain p (goodPathChar_no_qh p hp),
    escapeQH_plain ("/" ++ p) (goodPathChar_no_qh _ hp')]
  rw [if_pos ⟨hne, hslash⟩]
  have hif : (if "/" ++ p ≠ "" ∧ ("/" ++ p).data.head? ≠ some '/' then
      "/" ++ ("/" ++ p) else "/" ++ p) = "/" ++ p :=
    if_neg (fun hcon => hcon.2 rfl)
  rw [hif]

theorem urlFormatView_pathname (p : String) (q : List (String × String))
    (hp : ∀ c ∈ p.data, goodPathChar c = true)
    (hslash : p.data.head? = some '/') :
    (urlParse (urlFormatView p q)).pathname = some p := by
  rw [urlFormatView_slash p q hp hslash, urlParse, data_view_url]
  have hsd : (if stringifyQuery q = "" then "" else "?" ++ stringifyQuery q).data = []
      ∨ ∃ t, (if stringifyQuery q = "" then "" else "?" ++ stringifyQuery q).data =
        '?' :: t := by
    by_cases hqs : stringifyQuery q = ""
    · left
      rw [if_pos hqs]
    · right
      rw [if_neg hqs]
      exact ⟨(stringifyQuery q).data, rfl⟩
  exact (urlParse_slashes_pathname "view".data p _ (by decide) (by decide)
    hp hslash hsd).1

/-- C8 (amended): for a non-empty path `p` of plain characters, the
round-trip `resolve(format(p))` of the claim is platform-split rather than
the identity: on non-win32 it returns `p` exactly when `p` begins with a
path separator and returns `"/" ++ p` otherwise (the URL formatter
prepends the separator); on win32, where `parseFilePath` strips the first
character, it returns `p` exactly when `p` lacks a leading separator. -/
theorem C8_roundtrip (p : String) (q : List (String × String))
    (hp : ∀ c ∈ p.data, goodPathChar c = true) (hne : p ≠ "") :
    (p.data.head? = some '/' →
      parseFilePathE false (urlFormatView p q) = .ok p) ∧
    (p.data.head? ≠ some '/' →
      parseFilePathE true (urlFormatView p q) = .ok p ∧
      parseFilePathE false (urlFormatView p q) = .ok ("/" ++ p)) := by
  constructor
  · intro hslash
    have hpath := urlFormatView_pathname p q hp hslash
    simp [parseFilePathE, hpath, decodeSpaces_plain p hp]
  · intro hslash
    have hp' : ∀ c ∈ ("/" ++ p).data, goodPathChar c = true := by
      intro c hc
      rcases List.mem_cons.mp hc with rfl | hc'
      · decide
      · exact hp c hc'
    have hfmt := urlFormatView_noslash p q hp hne hslash
    have hpath : (urlParse (urlFormatView p q)).pathname = some ("/" ++ p) := by
      rw [hfmt]
      exact urlFormatView_pathname ("/" ++ p) q hp' rfl
    have hsub : jsSubstr ("/" ++ p) 1 = p := rfl
    constructor
    · simp [parseFilePathE, hpath, hsub, decodeSpaces_plain p hp]
    · simp [parseFilePathE, hpath, decodeSpaces_plain ("/" ++ p) hp']

/-- C8 counterexample: on the non-win32 branch, formatting the plain,
separator-free path `home` and resolving it back yields `/home`, not
`home`; on the win32 branch, the plain path `/about` comes back as
`about`. The round trip is not the identity on either platform. -/
theorem C8_counterexample :
    parseFilePathE false (urlFormatView "home" [("_view", "home")]) =
      .ok "/home" ∧
    ("/home" : String) ≠ "home" ∧
    parseFilePathE true (urlFormatView "/about" []) = .ok "about" ∧
    ("about" : String) ≠ "/about" :=
  ⟨rfl, by decide, rfl, by decide⟩

theorem C8_witness :
    parseFilePathE false (urlFormatView "/docs/page" [("_view", "/docs/page")]) =
      .ok "/docs/page" ∧
    parseFilePathE true (urlFormatView "win" []) = .ok "win" := by
  constructor
  · exact (C8_roundtrip "/docs/page" [("_view", "/docs/page")] (by decide)
      (by decide)).1 (by decide)
  · exact ((C8_roundtrip "win" [] (by decide) (by decide)).2 (by decide)).1

/-! ## Asset resolution (C9) -/

theorem string_eq_of_data (a b : String) (h : a.data = b.data) : a = b := by
  rw [← string_mk_data a, ← string_mk_data b, h]

theorem data_ne_nil_of_ne_empty (s : String) (h : s ≠ "") : s.data ≠ [] :=
  fun hd => h (by rw [← string_mk_data s, hd])

theorem lastElem?_isSome (l : List α) (h : l ≠ []) :
    ∃ u, lastElem? l = some u ∧ u ∈ l := by
  induction l with
  | nil => exact absurd rfl h
  | cons a rest ih =>
    cases hr : rest with
    | nil => exact ⟨a, rfl, by simp⟩
    | cons b bs =>
      obtain ⟨u, hu, hmem⟩ := ih (by simp [hr])
      rw [hr] at hu hmem
      exact ⟨u, by rw [lastElem?_cons_of_ne_nil a (b :: bs) (by simp)]; exact hu,
        List.mem_cons_of_mem a hmem⟩

theorem filter_ne_nil_eq_self (l : List (List Char)) (h : ∀ s ∈ l, s ≠ []) :
    l.filter (fun s => s ≠ []) = l := by
  induction l with
  | nil => rfl
  | cons s rest ih =>
    have hs : s ≠ [] := h s (by simp)
    rw [List.filter_cons_of_pos (by simpa using hs)]
    rw [ih (fun u hu => h u (List.mem_cons_of_mem s hu))]

theorem pathJoinList_eq (parts : List String) :
    pathJoinList parts =
      (if parts.filter (fun p => p ≠ "") = [] then "."
       else String.mk (posixNormalizeList
         (joinSegs ((parts.filter (fun p => p ≠ "")).map String.data)))) := rfl

theorem parsePathSearch_nosearch (host : Option String) (pn : List Char)
    (hpn : pn ≠ []) (hchars : ∀ c ∈ pn, pathChar c = true) :
    (parsePathSearch host pn).pathname = some (String.mk pn) ∧
      (parsePathSearch host pn).hostname = host := by
  have h := parsePathSearch_plain host pn [] hpn hchars (Or.inl rfl)
  rw [List.append_nil] at h
  exact h

/-- C9: an asset URL with empty host resolves to
`assetsPath/relativePath`, and one with host `css` resolves to
`assetsPath/css/relativePath` — for every relative path made of plain,
dot-free segments and every plain single-segment assets root. -/
theorem C9_asset_resolution (st : EVRState) (segs : List (List Char))
    (hsegs : ∀ s ∈ segs, s ≠ [] ∧ s ≠ ['.'] ∧ s ≠ ['.', '.'] ∧
      ∀ c ∈ s, goodSegChar c = true)
    (hne : segs ≠ [])
    (hroot : st.assetsPath ≠ "" ∧ st.assetsPath.data ≠ ['.'] ∧
      st.assetsPath.data ≠ ['.', '.'] ∧
      ∀ c ∈ st.assetsPath.data, goodSegChar c = true) :
    assetFilePath false st ("asset:///" ++ String.mk (joinSegs segs)) =
      .ok (st.assetsPath ++ "/" ++ String.mk (joinSegs segs)) ∧
    assetFilePath false st ("asset://css/" ++ String.mk (joinSegs segs)) =
      .ok (st.assetsPath ++ "/css/" ++ String.mk (joinSegs segs)) := by
  have hsegnoslash : ∀ s ∈ segs, '/' ∉ s := fun s hs hmem =>
    (goodSegChar_good '/' ((hsegs s hs).2.2.2 '/' hmem)).2 rfl
  have hrelchar : ∀ c ∈ joinSegs segs, goodPathChar c = true := by
    intro c hc
    rcases mem_joinSegs segs c hc with rfl | ⟨s, hs, hcs⟩
    · decide
    · exact (goodSegChar_good c ((hsegs s hs).2.2.2 c hcs)).1
  have hapnoslash : '/' ∉ st.assetsPath.data := fun hmem =>
    (goodSegChar_good '/' (hroot.2.2.2 '/' hmem)).2 rfl
  have hapdne : st.assetsPath.data ≠ [] := data_ne_nil_of_ne_empty _ hroot.1
  obtain ⟨ulast, hulast, hulastmem⟩ := lastElem?_isSome segs hne
  have hulastne : ulast ≠ [] := (hsegs ulast hulastmem).1
  have hp1chars : ∀ c ∈ (String.mk ('/' :: joinSegs segs)).data,
      goodPathChar c = true := by
    intro c hc
    rcases List.mem_cons.mp hc with rfl | hc'
    · decide
    · exact hrelchar c hc'
  have hp1ne : String.mk ('/' :: joinSegs segs) ≠ "" := fun h =>
    List.noConfusion (congrArg String.data h)
  have hpathchars : ∀ c ∈ ('/' :: joinSegs segs), pathChar c = true :=
    fun c hc => (goodPathChar_spec c (hp1chars c hc)).2.2.1
  have hsegsok : ∀ s ∈ segs, s = [] ∨ ('/' ∉ s ∧ s ≠ ['.'] ∧ s ≠ ['.', '.']) :=
    fun s hs => Or.inr ⟨hsegnoslash s hs, (hsegs s hs).2.1, (hsegs s hs).2.2.1⟩
  -- normalization of assetsPath/[]/rel
  have hnorm1 : posixNormalizeList (joinSegs (st.assetsPath.data :: [] :: segs)) =
      joinSegs (st.assetsPath.data :: segs) := by
    have h := posixNormalizeList_segs (st.assetsPath.data :: [] :: segs)
      (by
        intro s hs
        rcases List.mem_cons.mp hs with rfl | hs'
        · exact Or.inr ⟨hapnoslash, hroot.2.1, hroot.2.2.1⟩
        · rcases List.mem_cons.mp hs' with rfl | hs''
          · exact Or.inl rfl
          · exact hsegsok s hs'')
      ⟨st.assetsPath.data, [] :: segs, rfl, hapdne⟩
      (by
        refine ⟨ulast, ?_, hulastne⟩
        rw [lastElem?_cons_of_ne_nil _ ([] :: segs) (by simp)]
        rw [lastElem?_cons_of_ne_nil [] segs hne]
        exact hulast)
    rw [h]
    rw [List.filter_cons_of_pos (by simpa using hapdne)]
    rw [List.filter_cons_of_neg (by simp)]
    rw [filter_ne_nil_eq_self segs (fun s hs => (hsegs s hs).1)]
  -- normalization of assetsPath/css/[]/rel
  have hnorm2 : posixNormalizeList
      (joinSegs (st.assetsPath.data :: ['c', 's', 's'] :: [] :: segs)) =
      joinSegs (st.assetsPath.data :: ['c', 's', 's'] :: segs) := by
    have h := posixNormalizeList_segs
      (st.assetsPath.data :: ['c', 's', 's'] :: [] :: segs)
      (by
        intro s hs
        rcases List.mem_cons.mp hs with rfl | hs'
        · exact Or.inr ⟨hapnoslash, hroot.2.1, hroot.2.2.1⟩
        · rcases List.mem_cons.mp hs' with rfl | hs''
          · exact Or.inr (by decide)
          · rcases List.mem_cons.mp hs'' with rfl | hs3
            · exact Or.inl rfl
            · exact hsegsok s hs3)
      ⟨st.assetsPath.data, ['c', 's', 's'] :: [] :: segs, rfl, hapdne⟩
      (by
        refine ⟨ulast, ?_, hulastne⟩
        rw [lastElem?_cons_of_ne_nil _ (['c', 's', 's'] :: [] :: segs) (by simp)]
        rw [lastElem?_cons_of_ne_nil _ ([] :: segs) (by simp)]
        rw [lastElem?_cons_of_ne_nil [] segs hne]
        exact hulast)
    rw [h]
    rw [List.filter_cons_of_pos (by simpa using hapdne)]
    rw [List.filter_cons_of_pos (by simp)]
    rw [List.filter_cons_of_neg (by simp)]
    rw [filter_ne_nil_eq_self segs (fun s hs => (hsegs s hs).1)]
  constructor
  · -- empty host: asset:///rel ⇒ assetsPath/rel
    have hparse : urlParse ("asset:///" ++ String.mk (joinSegs segs)) =
        parsePathSearch (some (String.mk [])) ('/' :: joinSegs segs) := by
      rw [urlParse]
      rw [show ("asset:///" ++ String.mk (joinSegs segs)).data =
        "asset".data ++ ':' :: '/' :: '/' :: ('/' :: joinSegs segs) from rfl]
      rw [urlParseCore_slashes "asset".data _ (by decide) (by decide)]
      rw [takeWhile_cons_neg hostChar '/' _ (by decide)]
      rfl
    have hpse := parsePathSearch_nosearch (some (String.mk []))
      ('/' :: joinSegs segs) (by simp) hpathchars
    have hpn : (urlParse ("asset:///" ++ String.mk (joinSegs segs))).pathname =
        some (String.mk ('/' :: joinSegs segs)) := by
      rw [hparse]
      exact hpse.1
    have hhost : (urlParse ("asset:///" ++ String.mk (joinSegs segs))).hostname =
        some "" := by
      rw [hparse]
      exact hpse.2
    have hfp : parseFilePathE false ("asset:///" ++ String.mk (joinSegs segs)) =
        .ok (String.mk ('/' :: joinSegs segs)) := by
      rw [parseFilePathE.eq_def, hpn]
      show Except.ok (decodeSpaces (String.mk ('/' :: joinSegs segs))) =
        Except.ok (String.mk ('/' :: joinSegs segs))
      rw [decodeSpaces_plain _ hp1chars]
    rw [assetFilePath.eq_def, hfp, hhost]
    show Except.ok (pathJoinList [st.assetsPath, "", String.mk ('/' :: joinSegs segs)]) =
      Except.ok (st.assetsPath ++ "/" ++ String.mk (joinSegs segs))
    rw [pathJoinList_eq]
    rw [show [st.assetsPath, "", String.mk ('/' :: joinSegs segs)].filter
        (fun p => p ≠ "") = [st.assetsPath, String.mk ('/' :: joinSegs segs)] by
      rw [List.filter_cons_of_pos (by simpa using hroot.1)]
      rw [List.filter_cons_of_neg (by simp)]
      rw [List.filter_cons_of_pos (by simpa using hp1ne)]
      rw [List.filter_nil]]
    rw [if_neg (by simp)]
    rw [show ([st.assetsPath, String.mk ('/' :: joinSegs segs)].map String.data) =
      [st.assetsPath.data, '/' :: joinSegs segs] from rfl]
    rw [show joinSegs [st.assetsPath.data, '/' :: joinSegs segs] =
        joinSegs (st.assetsPath.data :: [] :: segs) by
      rw [joinSegs_cons st.assetsPath.data ([] :: segs) (by simp)]
      rw [joinSegs_cons [] segs hne]
      rfl]
    rw [hnorm1]
    refine congrArg Except.ok (string_eq_of_data _ _ ?_)
    rw [show (String.mk (joinSegs (st.assetsPath.data :: segs))).data =
      joinSegs (st.assetsPath.data :: segs) from rfl]
    rw [joinSegs_cons st.assetsPath.data segs hne]
    show st.assetsPath.data ++ '/' :: joinSegs segs =
      (st.assetsPath.data ++ ['/']) ++ joinSegs segs
    rw [List.append_assoc]
    rfl
  · -- host css: asset://css/rel ⇒ assetsPath/css/rel
    have hparse : urlParse ("asset://css/" ++ String.mk (joinSegs segs)) =
        parsePathSearch (some (String.mk (['c', 's', 's'].map Char.toLower)))
          ('/' :: joinSegs segs) := by
      rw [urlParse]
      rw [show ("asset://css/" ++ String.mk (joinSegs segs)).data =
        "asset".data ++ ':' :: '/' :: '/' ::
          (['c', 's', 's'] ++ '/' :: joinSegs segs) from rfl]
      rw [urlParseCore_slashes "asset".data _ (by decide) (by decide)]
      rw [takeWhile_append_all hostChar ['c', 's', 's'] _ (by decide)]
      rw [takeWhile_cons_neg hostChar '/' _ (by decide)]
      rw [List.append_nil]
      rw [show (['c', 's', 's'] ++ '/' :: joinSegs segs).drop
        (['c', 's', 's'].length) = '/' :: joinSegs segs from
        List.drop_left ['c', 's', 's'] ('/' :: joinSegs segs)]
    have hpse := parsePathSearch_nosearch
      (some (String.mk (['c', 's', 's'].map Char.toLower)))
      ('/' :: joinSegs segs) (by simp) hpathchars
    have hpn : (urlParse ("asset://css/" ++ String.mk (joinSegs segs))).pathname =
        some (String.mk ('/' :: joinSegs segs)) := by
      rw [hparse]
      exact hpse.1
    have hhost : (urlParse ("asset://css/" ++ String.mk (joinSegs segs))).hostname =
        some "css" := by
      rw [hparse]
      exact hpse.2.trans (by decide)
    have hfp : parseFilePathE false ("asset://css/" ++ String.mk (joinSegs segs)) =
        .ok (String.mk ('/' :: joinSegs segs)) := by
      rw [parseFilePathE.eq_def, hpn]
      show Except.ok (decodeSpaces (String.mk ('/' :: joinSegs segs))) =
        Except.ok (String.mk ('/' :: joinSegs segs))
      rw [decodeSpaces_plain _ hp1chars]
    rw [assetFilePath.eq_def, hfp, hhost]
    show Except.ok (pathJoinList [st.assetsPath, "css", String.mk ('/' :: joinSegs segs)]) =
      Except.ok (st.assetsPath ++ "/css/" ++ String.mk (joinSegs segs))
    rw [pathJoinList_eq]
    rw [show [st.assetsPath, "css", String.mk ('/' :: joinSegs segs)].filter
        (fun p => p ≠ "") =
        [st.assetsPath, "css", String.mk ('/' :: joinSegs segs)] by
      rw [List.filter_cons_of_pos (by simpa using hroot.1)]
      rw [List.filter_cons_of_pos (by simp)]
      rw [List.filter_cons_of_pos (by simpa using hp1ne)]
      rw [List.filter_nil]]
    rw [if_neg (by simp)]
    rw [show ([st.assetsPath, "css", String.mk ('/' :: joinSegs segs)].map
      String.data) = [st.assetsPath.data, ['c', 's', 's'], '/' :: joinSegs segs]
      from rfl]
    rw [show joinSegs [st.assetsPath.data, ['c', 's', 's'], '/' :: joinSegs segs] =
        joinSegs (st.assetsPath.data :: ['c', 's', 's'] :: [] :: segs) by
      rw [joinSegs_cons st.assetsPath.data (['c', 's', 's'] :: [] :: segs) (by simp)]
      rw [joinSegs_cons ['c', 's', 's'] ([] :: segs) (by simp)]
      rw [joinSegs_cons [] segs hne]
      rw [joinSegs_cons st.assetsPath.data [['c', 's', 's'], '/' :: joinSegs segs]
        (by simp)]
      rw [joinSegs_cons ['c', 's', 's'] ['/' :: joinSegs segs] (by simp)]
      rfl]
    rw [hnorm2]
    refine congrArg Except.ok (string_eq_of_data _ _ ?_)
    rw [show (String.mk (joinSegs
      (st.assetsPath.data :: ['c', 's', 's'] :: segs))).data =
      joinSegs (st.assetsPath.data :: ['c', 's', 's'] :: segs) from rfl]
    rw [joinSegs_cons st.assetsPath.data (['c', 's', 's'] :: segs) (by simp)]
    rw [joinSegs_cons ['c', 's', 's'] segs hne]
    show st.assetsPath.data ++ '/' :: (['c', 's', 's'] ++ '/' :: joinSegs segs) =
      (st.assetsPath.data ++ ['/', 'c', 's', 's', '/']) ++ joinSegs segs
    rw [List.append_assoc]
    rfl

theorem C9_witness :
    assetFilePath false (evrInit) "asset:///main.css" = .ok "assets/main.css" ∧
    assetFilePath false (evrInit) "asset://css/sub/main.css" =
      .ok "assets/css/sub/main.css" := by
  have h1 := (C9_asset_resolution (evrInit) ["main.css".data]
    (by decide) (by simp) (by decide)).1
  have h2 := (C9_asset_resolution (evrInit) ["sub".data, "main.css".data]
    (by decide) (by simp) (by decide)).2
  constructor
  · rw [show ("asset:///" ++ String.mk (joinSegs ["main.css".data])) =
      "asset:///main.css" by decide] at h1
    exact h1.trans rfl
  · rw [show ("asset://css/" ++
      String.mk (joinSegs ["sub".data, "main.css".data])) =
      "asset://css/sub/main.css" by decide] at h2
    exact h2.trans rfl

end EVR
